import Mathlib

/-!
Shallow embedding of the Evergreen repotracker revision-ingestion pipeline
(package `repotracker`: `FetchRevisions`, `StoreRevisions`, `GetProjectConfig`,
`CreateVersionFromConfig`, `shellVersionFromRevision`, `sanityCheckOrderNum`,
`createVersionItems`).

The persisted store (versions, builds, tasks, repositories, the per-project
revision-order counter) is modelled as explicit state; external collaborators
(the repo poller, the remote-config fetcher, the project validator, the
changed-file lister, the build-break subscription helper) are modelled as
oracles supplied in an environment record.  Store reads are modelled as
reliable (pure functions of the state); store writes can be made to fail
through injected fault oracles, which is how the code's error branches are
exercised.
-/

namespace Evergreen

/-- A source-control revision as delivered by the repo poller
(`model.Revision`). -/
structure Revision where
  revision : String
  author : String
  authorEmail : String
  authorGithubUID : Int
  revisionMessage : String
  createTime : Nat
deriving DecidableEq, Repr

/-- Per-variant activation record stored on a version
(`version.BuildStatus`). -/
structure BuildStatus where
  buildVariant : String
  activated : Bool
  activateAt : Nat
  buildId : String
deriving DecidableEq, Repr

/-- A stored version document (`version.Version`), with the fields the
pipeline reads or writes. -/
structure Version where
  id : String
  author : String
  authorEmail : String
  branch : String
  createTime : Nat
  identifier : String
  message : String
  owner : String
  remotePath : String
  repo : String
  repoKind : String
  requester : String
  revision : String
  status : String
  revisionOrderNumber : Nat
  config : String
  ignored : Bool
  errors : List String
  warnings : List String
  buildIds : List String
  buildVariants : List BuildStatus
  authorID : String
deriving DecidableEq, Repr

/-- A build document owned by a version (`build.Build`), kept to the fields
the claims are about. -/
structure Build where
  id : String
  versionId : String
  buildVariantName : String
  taskIds : List String
deriving DecidableEq, Repr

/-- A task document owned by a build.  The task structure itself lives in an
external package; we keep enough to observe that tasks exist per build. -/
structure TaskDoc where
  id : String
  buildId : String
  displayName : String
deriving DecidableEq, Repr

/-- The per-project repository watermark (`model.Repository`). -/
structure Repository where
  project : String
  lastRevision : String
deriving DecidableEq, Repr

/-- A build variant in the project configuration, with the fields the
pipeline reads: name, disabled flag, optional batch-time override, and the
tasks it runs. -/
structure BuildVariant where
  name : String
  disabled : Bool
  batchTime : Option Nat
  taskNames : List String
deriving DecidableEq, Repr

/-- The resolved project configuration (`model.Project`), with the fields
the pipeline reads: the ignore-file patterns and the build variants. -/
structure Project where
  ignore : List String
  buildVariants : List BuildVariant
deriving DecidableEq, Repr

/-- Diagnostic severity produced by the external project validator. -/
inductive DiagLevel where
  | warning
  | error
deriving DecidableEq, Repr

/-- A diagnostic produced by the external project validator
(`validator.CheckProjectSyntax`). -/
structure Diagnostic where
  level : DiagLevel
  message : String
deriving DecidableEq, Repr

/-- Error/warning messages carried to a stub version (`VersionErrors`). -/
structure VersionErrors where
  errors : List String
  warnings : List String
deriving DecidableEq, Repr

/-- The persisted store: versions, builds, tasks, repository watermarks and
the per-project revision-order counters, all keyed as in the document
database. -/
structure Db where
  versions : List Version
  builds : List Build
  tasks : List TaskDoc
  repos : List Repository
  counters : List (String × Nat)
deriving DecidableEq, Repr

/-- Failure classes of the remote-config fetch (`thirdparty` error types).
The first three are the kinds `GetProjectConfig` treats as recoverable
config errors; the rest are infrastructural. -/
inductive RemoteErrKind where
  | apiRequest
  | yamlFormat
  | fileNotFound
  | apiUnmarshal
  | responseRead
  | apiResponse
deriving DecidableEq, Repr

/-- Environment of external collaborators and injected faults consumed by
one pipeline run. -/
structure Env where
  remoteConfig : String → Except RemoteErrKind Project
  localProject : Except Unit Project
  changedFiles : String → Except Unit (List String)
  checkProject : Project → Except Unit (List Diagnostic)
  findUser : Int → Option String
  fileIgnored : String → Bool
  addBuildBreakOk : String → Bool
  insFault : String → Bool
  now : Nat

/-- The project reference (`model.ProjectRef`), with the fields the pipeline
reads. -/
structure ProjectRef where
  identifier : String
  branch : String
  owner : String
  repo : String
  repoKind : String
  remotePath : String
  localConfig : String
  enabled : Bool
  repotrackerError : Bool
  batchTime : Nat
deriving DecidableEq, Repr

/-- Modelled from the spec: the store's point lookup by the unique
(projectId, revisionId) pair (`version.ByProjectIdAndRevision`). -/
def findByProjectIdAndRevision (db : Db) (projectId revision : String) : Option Version :=
  db.versions.find? (fun v => v.identifier == projectId && v.revision == revision)

/-- Modelled from the spec: the store's point lookup by version id
(`version.ById`). -/
def findOneById (db : Db) (id : String) : Option Version :=
  db.versions.find? (fun v => v.id == id)

/-- Modelled from the spec: of a list of versions, the one with the greatest
order number ("latest for project"; orderNumber totally orders versions). -/
def argmaxOrder (vs : List Version) : Option Version :=
  vs.foldl
    (fun acc v =>
      match acc with
      | none => some v
      | some w => if w.revisionOrderNumber < v.revisionOrderNumber then some v else some w)
    none

/-- Modelled from the spec: the latest stored version for a project
(`version.ByMostRecentSystemRequester`). -/
def latestVersion (db : Db) (projectId : String) : Option Version :=
  argmaxOrder (db.versions.filter (fun v => v.identifier == projectId))

/-- Modelled from the spec: the most recent prior version of the project
that recorded an activation time for the given build-variant name
(`version.ByLastVariantActivation`). -/
def byLastVariantActivation (db : Db) (projectId variantName : String) : Option Version :=
  argmaxOrder (db.versions.filter
    (fun v => v.identifier == projectId &&
      v.buildVariants.any (fun bs => bs.buildVariant == variantName && bs.activated)))

/-- Modelled from the spec: the per-project watermark lookup
(`model.FindRepository`). -/
def findRepository (db : Db) (projectId : String) : Option Repository :=
  db.repos.find? (fun r => r.project == projectId)

/-- Modelled from the spec: current value of the per-project revision-order
counter (0 before any number was handed out). -/
def counterOf (db : Db) (projectId : String) : Nat :=
  match db.counters.find? (fun c => c.1 == projectId) with
  | some c => c.2
  | none => 0

/-- Modelled from the spec: the atomic order-number counter
(`model.GetNewRevisionOrderNumber`): hands out the next number for the
project and persists the advanced counter. -/
def getNewRevisionOrderNumber (db : Db) (projectId : String) : Nat × Db :=
  let n := counterOf db projectId + 1
  (n, { db with counters := (projectId, n) :: db.counters.filter (fun c => !(c.1 == projectId)) })

/-- Modelled from the spec: the store's uniqueness constraints for a version
insert: unique id, unique (projectId, revisionId), unique
(projectId, orderNumber). -/
def versionClash (db : Db) (v : Version) : Bool :=
  db.versions.any (fun w =>
    w.id == v.id ||
    (w.identifier == v.identifier && w.revision == v.revision) ||
    (w.identifier == v.identifier && w.revisionOrderNumber == v.revisionOrderNumber))

/-- Outcome of a version insert. -/
inductive InsOutcome where
  | inserted (db : Db)
  | dupKey
  | failed
deriving DecidableEq, Repr

/-- Modelled from the spec: `Version.Insert` against the document store.
A violated uniqueness constraint surfaces as a duplicate-key error; any
other store failure is injected through the environment's fault oracle. -/
def insertVersionRaw (env : Env) (db : Db) (v : Version) : InsOutcome :=
  if env.insFault v.id then .failed
  else if versionClash db v then .dupKey
  else .inserted { db with versions := db.versions ++ [v] }

/-- Modelled from the spec: `model.DeleteBuild`: removes the build with the
given id and its tasks. -/
def deleteBuild (db : Db) (buildId : String) : Db :=
  { db with
    builds := db.builds.filter (fun b => !(b.id == buildId)),
    tasks := db.tasks.filter (fun t => !(t.buildId == buildId)) }

/-- Modelled from the spec: `model.UpdateLastRevision`: advance the
project's watermark. -/
def updateLastRevision (db : Db) (projectId revision : String) : Db :=
  { db with repos :=
      (⟨projectId, revision⟩ : Repository) :: db.repos.filter (fun r => !(r.project == projectId)) }

/-- Modelled from the spec: `util.CleanName` sanitizes a document id. -/
def cleanName (s : String) : String :=
  String.mk (s.data.map (fun c => if c == '/' || c == ' ' then '_' else c))

/-- Modelled from the spec: `ProjectRef.String`, used to build version ids. -/
def refString (ref : ProjectRef) : String := ref.identifier

/-- The id `shellVersionFromRevision` assigns to the version of a
(project, revision) pair. -/
def versionIdFor (ref : ProjectRef) (rev : Revision) : String :=
  cleanName (refString ref ++ "_" ++ rev.revision)

/-- Modelled from the spec: the config is serialized (`yaml.Marshal`) into
the version document; the exact encoding is irrelevant to the pipeline. -/
def yamlMarshal (p : Project) : String :=
  String.intercalate "," (p.buildVariants.map (fun bv => bv.name)) ++ ";" ++
    String.intercalate "," p.ignore

/-- Modelled from the spec: `ProjectRef.GetBatchTime`: the variant's
batch-time override, falling back to the project-wide default. -/
def getBatchTime (ref : ProjectRef) (bv : BuildVariant) : Nat :=
  match bv.batchTime with
  | some t => t
  | none => ref.batchTime

/-- One minute, in the seconds-valued timestamps of the model
(`time.Minute`). -/
def minute : Nat := 60

/-- Modelled from the spec: `Project.IgnoresAllFiles`: every changed file
matches the project's ignore patterns; the gitignore-style matcher itself
is the environment's `fileIgnored` oracle. -/
def ignoresAllFiles (env : Env) (files : List String) : Bool :=
  files.all env.fileIgnored

/-- The requester constant stamped on repotracker versions
(`evergreen.RepotrackerVersionRequester`). -/
def repotrackerVersionRequester : String := "gitter_request"

/-- The initial status of a created version (`evergreen.VersionCreated`). -/
def versionCreated : String := "created"

/-- The `shellVersionFromRevision` of the source: populates a new version
with metadata from a revision and draws the next order number; stores
nothing. -/
def shellVersionFromRevision (env : Env) (db : Db) (ref : ProjectRef) (rev : Revision) :
    Version × Db :=
  let u := env.findUser rev.authorGithubUID
  let nd := getNewRevisionOrderNumber db ref.identifier
  let v : Version :=
    { id := versionIdFor ref rev
      author := rev.author
      authorEmail := rev.authorEmail
      branch := ref.branch
      createTime := rev.createTime
      identifier := ref.identifier
      message := rev.revisionMessage
      owner := ref.owner
      remotePath := ref.remotePath
      repo := ref.repo
      repoKind := ref.repoKind
      requester := repotrackerVersionRequester
      revision := rev.revision
      status := versionCreated
      revisionOrderNumber := nd.1
      config := ""
      ignored := false
      errors := []
      warnings := []
      buildIds := []
      buildVariants := []
      authorID := match u with | some uid => uid | none => "" }
  (v, nd.2)

/-- The `sanityCheckOrderNum` of the source: true iff the new order number
passes the consistency check against the latest stored version (no latest:
trivially true; same revision id as latest, or a non-increasing order
number: false). -/
def sanityCheckOrderNum (db : Db) (revOrderNum : Nat) (projectId revision : String) : Bool :=
  match latestVersion db projectId with
  | none => true
  | some latest =>
      if latest.revision == revision then false
      else decide (latest.revisionOrderNumber < revOrderNum)

/-- Modelled from the spec: the task-identifier table
(`model.NewTaskIdTable`): a stable id for every (variant, task) of the
version, computed before any entity is created. -/
def taskIdFor (vid : String) (variantName taskName : String) : String :=
  vid ++ "_" ++ variantName ++ "_" ++ taskName

/-- The build id assigned to the (version, variant) build. -/
def mkBuildId (vid : String) (variantName : String) : String :=
  vid ++ "_" ++ variantName

/-- The build document created for one variant of a version. -/
def buildDocFor (vid : String) (bv : BuildVariant) : Build :=
  { id := mkBuildId vid bv.name, versionId := vid, buildVariantName := bv.name,
    taskIds := bv.taskNames.map (fun t => taskIdFor vid bv.name t) }

/-- The task documents created for one variant of a version. -/
def taskDocsFor (vid : String) (bv : BuildVariant) : List TaskDoc :=
  bv.taskNames.map
    (fun t => ({ id := taskIdFor vid bv.name t, buildId := mkBuildId vid bv.name,
                 displayName := t } : TaskDoc))

/-- Modelled from the spec: `model.CreateBuildFromVersion`: creates the
build and its tasks for one variant, wired through the task-id table, and
persists them; returns the new build's id. -/
def createBuildFromVersion (db : Db) (vid : String) (bv : BuildVariant) : String × Db :=
  (mkBuildId vid bv.name,
    { db with
      builds := db.builds ++ [buildDocFor vid bv],
      tasks := db.tasks ++ taskDocsFor vid bv })

/-- The prior activation time the source looks up for a variant: the most
recent version with an activated build-status of that variant name, and
within it the first matching activated status' activation time. -/
def priorActivation (db : Db) (projectId variantName : String) : Option Nat :=
  match byLastVariantActivation db projectId variantName with
  | none => none
  | some lv =>
      match lv.buildVariants.find? (fun bs => bs.buildVariant == variantName && bs.activated) with
      | none => none
      | some bs => some bs.activateAt

/-- The activation time the source computes for a variant: now when there is
no prior activation, otherwise the prior activation plus the variant's
batch time in minutes. -/
def computeActivateAt (env : Env) (db : Db) (ref : ProjectRef) (bv : BuildVariant) : Nat :=
  match priorActivation db ref.identifier bv.name with
  | none => env.now
  | some t => t + minute * getBatchTime ref bv

/-- The per-variant loop of `createVersionItems`: skips disabled variants;
for each enabled variant creates its build and tasks, computes the
activation time, and records the build reference and build status on the
version. -/
def expandLoop (env : Env) (ref : ProjectRef) : Version × Db → List BuildVariant → Version × Db
  | acc, [] => acc
  | acc, bv :: rest =>
    if bv.disabled then expandLoop env ref acc rest
    else
      let bd := createBuildFromVersion acc.2 acc.1.id bv
      let activateAt := computeActivateAt env bd.2 ref bv
      expandLoop env ref
        ({ acc.1 with
            buildIds := acc.1.buildIds ++ [bd.1],
            buildVariants := acc.1.buildVariants ++
              [{ buildVariant := bv.name, activated := false,
                 activateAt := activateAt, buildId := bd.1 }] },
          bd.2) rest

/-- The per-variant expansion of `createVersionItems`, run over the
config's build variants. -/
def expandBuilds (env : Env) (db : Db) (v : Version) (ref : ProjectRef) (project : Project) :
    Version × Db :=
  expandLoop env ref (v, db) project.buildVariants

/-- The `createVersionItems` of the source: expands every enabled variant,
then persists the version.  A duplicate-key insert failure is treated as
success; any other insert failure deletes every build just created and
propagates the error (the error value carries the store state). -/
def createVersionItems (env : Env) (db : Db) (v : Version) (ref : ProjectRef)
    (project : Project) : Except Db (Version × Db) :=
  let vd := expandBuilds env db v ref project
  match insertVersionRaw env vd.2 vd.1 with
  | .inserted db2 => .ok (vd.1, db2)
  | .dupKey => .ok (vd.1, vd.2)
  | .failed =>
      .error (vd.1.buildVariants.foldl (fun d bs => deleteBuild d bs.buildId) vd.2)

/-- Failure classes of `GetProjectConfig`: a recoverable project-config
error carrying messages (`projectConfigError`), or a fatal infrastructural
error. -/
inductive ConfigFail where
  | projectConfig (errors warnings : List String)
  | fatal
deriving DecidableEq, Repr

/-- The message attached to a recoverable config error ("problem finding
project configuration"). -/
def configProblemMsg (ref : ProjectRef) (revision : String) : String :=
  "problem finding project configuration: project=" ++ ref.identifier ++
    " revision=" ++ revision ++ " path=" ++ ref.remotePath

/-- The `GetProjectConfig` of the source: local-config projects load the
local snapshot (failures there are infrastructural); otherwise the remote
config is fetched and fetch failures are classified: API-request,
YAML-format and file-not-found errors become recoverable project-config
errors carrying a message, everything else is fatal. -/
def GetProjectConfig (env : Env) (ref : ProjectRef) (revision : String) :
    Except ConfigFail Project :=
  if ref.localConfig ≠ "" then
    match env.localProject with
    | .ok p => .ok p
    | .error _ => .error .fatal
  else
    match env.remoteConfig revision with
    | .ok p => .ok p
    | .error .apiRequest => .error (.projectConfig [configProblemMsg ref revision] [])
    | .error .yamlFormat => .error (.projectConfig [configProblemMsg ref revision] [])
    | .error .fileNotFound => .error (.projectConfig [configProblemMsg ref revision] [])
    | .error .apiUnmarshal => .error .fatal
    | .error .responseRead => .error .fatal
    | .error .apiResponse => .error .fatal

/-- The `CreateVersionFromConfig` of the source: build a shell version
(drawing an order number), run the order-number sanity check, serialize the
config, validate the project; on error-level diagnostics insert the version
as a stub and stop before expansion; otherwise expand builds and tasks via
`createVersionItems`.  The error value carries the store state at failure
(only the drawn counter has changed on the paths that store nothing). -/
def CreateVersionFromConfig (env : Env) (db : Db) (ref : ProjectRef) (project : Project)
    (rev : Revision) (ignore : Bool) (versionErrs : Option VersionErrors) :
    Except Db (Version × Db) :=
  let sh := shellVersionFromRevision env db ref rev
  if sanityCheckOrderNum sh.2 sh.1.revisionOrderNumber ref.identifier rev.revision = false then
    .error sh.2
  else
    let v1 := { sh.1 with config := yamlMarshal project, ignored := ignore }
    match env.checkProject project with
    | .error _ => .error sh.2
    | .ok verrs =>
        if verrs.length > 0 || versionErrs.isSome then
          let projectWarnings :=
            (verrs.filter (fun e => e.level == DiagLevel.warning)).map (fun e => e.message)
          let projectErrors :=
            (verrs.filter (fun e => !(e.level == DiagLevel.warning))).map (fun e => e.message)
          let extraW := match versionErrs with | some ve => ve.warnings | none => []
          let extraE := match versionErrs with | some ve => ve.errors | none => []
          let v2 := { v1 with warnings := projectWarnings ++ extraW,
                              errors := projectErrors ++ extraE }
          if v2.errors.length > 0 then
            match insertVersionRaw env sh.2 v2 with
            | .inserted db2 => .ok (v2, db2)
            | .dupKey => .error sh.2
            | .failed => .error sh.2
          else
            createVersionItems env sh.2 v2 ref project
        else
          createVersionItems env sh.2 v1 ref project

/-- The stub version synthesized for a recoverable config error: the shell
version carrying the error and warning messages, with no config and no
builds. -/
def stubFor (env : Env) (db : Db) (ref : ProjectRef) (rev : Revision)
    (errs warns : List String) : Version :=
  { (shellVersionFromRevision env db ref rev).1 with errors := errs, warnings := warns }

/-- Result of processing one revision inside `StoreRevisions`: continue with
the next revision, abort the batch with an error, or crash on a nil
dereference. -/
inductive StepRes where
  | cont (db : Db) (newest : Option Version)
  | fatal (db : Db)
  | crash (db : Db)
deriving DecidableEq, Repr

/-- One iteration of the `StoreRevisions` loop of the source: skip revisions
that already have a version; on a recoverable config error with error
messages insert a stub (an insert failure there is only logged) and
continue; on a fatal config error abort; otherwise run the ignore-file
check (a failed changed-file fetch skips the revision), create the version,
and continue — errors from version creation or from the build-break
subscription helper are logged and the revision is skipped. -/
def storeStep (env : Env) (ref : ProjectRef) (db : Db) (newest : Option Version)
    (rev : Revision) : StepRes :=
  match findByProjectIdAndRevision db ref.identifier rev.revision with
  | some existing => .cont db (some existing)
  | none =>
    match GetProjectConfig env ref rev.revision with
    | .error (.projectConfig errs warns) =>
        if errs.length > 0 then
          let stub := stubFor env db ref rev errs warns
          let db2 :=
            match insertVersionRaw env (shellVersionFromRevision env db ref rev).2 stub with
            | .inserted d => d
            | .dupKey => (shellVersionFromRevision env db ref rev).2
            | .failed => (shellVersionFromRevision env db ref rev).2
          .cont db2 (some stub)
        else
          -- the Go falls through with a nil project and dereferences
          -- project.Ignore on the next line
          .crash db
    | .error .fatal => .fatal db
    | .ok project =>
        let igRes : Option Bool :=
          if project.ignore.length > 0 then
            match env.changedFiles rev.revision with
            | .error _ => none
            | .ok files => some (ignoresAllFiles env files)
          else some false
        match igRes with
        | none => .cont db newest
        | some ignore =>
            match CreateVersionFromConfig env db ref project rev ignore none with
            | .error db1 => .cont db1 newest
            | .ok vd =>
                if env.addBuildBreakOk vd.1.id then .cont vd.2 (some vd.1)
                else .cont vd.2 newest

/-- Result of `StoreRevisions`: success with the newest version, an aborted
batch, or a crash. -/
inductive StoreRaw where
  | ok (db : Db) (newest : Option Version)
  | fatal (db : Db)
  | crash (db : Db)
deriving DecidableEq, Repr

/-- The `StoreRevisions` loop of the source, processing revisions in the
given order (oldest first). -/
def storeLoop (env : Env) (ref : ProjectRef) : Db → Option Version → List Revision → StoreRaw
  | db, newest, [] => .ok db newest
  | db, newest, r :: rest =>
    match storeStep env ref db newest r with
    | .cont db1 n1 => storeLoop env ref db1 n1 rest
    | .fatal db1 => .fatal db1
    | .crash db1 => .crash db1

/-- The `StoreRevisions` of the source: iterates over the revisions from the
oldest (the poller delivers them newest-first, the loop walks the slice
backwards), then — the deferred block — re-fetches the newest version by id
so the result includes its build variants. -/
def StoreRevisions (env : Env) (ref : ProjectRef) (db : Db) (revisions : List Revision) :
    StoreRaw :=
  match storeLoop env ref db none revisions.reverse with
  | .ok db1 newest =>
      .ok db1 (match newest with
               | some v => findOneById db1 v.id
               | none => none)
  | r => r

/-- Environment of the orchestrator: settings and poller oracles consumed by
`FetchRevisions`, plus injected faults for the watermark update and the
downstream activation pass. -/
structure OrchEnv where
  numNewRepoRevisionsToFetch : Int
  maxRepoRevisionsToSearch : Int
  getRecentRevisions : Int → Except Unit (List Revision)
  getRevisionsSince : String → Int → Except Unit (List Revision)
  updateLastRevisionOk : Bool
  doProjectActivationOk : Bool

/-- Default number of revisions fetched for a newly tracked repository. -/
def DefaultNumNewRepoRevisionsToFetch : Int := 200

/-- Default maximum search depth when polling since a watermark. -/
def DefaultMaxRepoRevisionsToSearch : Int := 50

/-- Result of a `FetchRevisions` run. -/
inductive FetchRes where
  | ok (db : Db)
  | err (db : Db)
  | crash (db : Db)
deriving DecidableEq, Repr

/-- The `FetchRevisions` of the source: skip disabled projects; cold-start
projects poll the most recent N revisions, watermarked projects with a
sticky repotracker error skip polling and succeed, otherwise poll since the
watermark; poll failures are logged and swallowed; retrieved revisions are
stored, the watermark is advanced to the newest stored version's revision
(failures of either propagate), and the downstream activation pass runs
unconditionally afterwards. -/
def FetchRevisions (oenv : OrchEnv) (env : Env) (ref : ProjectRef) (db : Db) : FetchRes :=
  if !ref.enabled then .ok db
  else
    let lastRevision :=
      match findRepository db ref.identifier with
      | some repo => repo.lastRevision
      | none => ""
    let polled : Option (Except Unit (List Revision)) :=
      if lastRevision == "" then
        let n := if oenv.numNewRepoRevisionsToFetch ≤ 0 then DefaultNumNewRepoRevisionsToFetch
                 else oenv.numNewRepoRevisionsToFetch
        some (oenv.getRecentRevisions n)
      else if ref.repotrackerError then none
      else
        let mx := if oenv.maxRepoRevisionsToSearch ≤ 0 then DefaultMaxRepoRevisionsToSearch
                  else oenv.maxRepoRevisionsToSearch
        some (oenv.getRevisionsSince lastRevision mx)
    match polled with
    | none => .ok db
    | some (.error _) => .ok db
    | some (.ok revisions) =>
        if revisions.length > 0 then
          match StoreRevisions env ref db revisions with
          | .fatal db1 => .err db1
          | .crash db1 => .crash db1
          | .ok db1 newest =>
              match newest with
              | none => .crash db1
              | some last =>
                  if oenv.updateLastRevisionOk then
                    let db2 := updateLastRevision db1 last.identifier last.revision
                    if oenv.doProjectActivationOk then .ok db2 else .err db2
                  else .err db1
        else
          if oenv.doProjectActivationOk then .ok db else .err db

/-- The store state carried by a step result. -/
def StepRes.dbOf : StepRes → Db
  | .cont db _ => db
  | .fatal db => db
  | .crash db => db

/-- The store state carried by a `StoreRevisions` result. -/
def StoreRaw.dbOf : StoreRaw → Db
  | .ok db _ => db
  | .fatal db => db
  | .crash db => db

/-- Whether a `StoreRevisions` run succeeded. -/
def StoreRaw.isOk : StoreRaw → Bool
  | .ok _ _ => true
  | .fatal _ => false
  | .crash _ => false

/-- The store state carried by a `CreateVersionFromConfig` or
`createVersionItems` result (the error value carries the state too). -/
def cvcDbOf : Except Db (Version × Db) → Db
  | .ok vd => vd.2
  | .error db => db

/-- The store state carried by a `FetchRevisions` result. -/
def FetchRes.dbOf : FetchRes → Db
  | .ok db => db
  | .err db => db
  | .crash db => db

/-- The build status `expandLoop` records for one enabled variant, with the
activation time computed against the given store state. -/
def variantStatusFor (env : Env) (db : Db) (ref : ProjectRef) (vid : String)
    (bv : BuildVariant) : BuildStatus :=
  { buildVariant := bv.name, activated := false,
    activateAt := computeActivateAt env db ref bv, buildId := mkBuildId vid bv.name }

/-- Activation times depend only on the stored versions, not on builds,
tasks, watermarks or counters. -/
theorem computeActivateAt_congr (env : Env) (db1 db2 : Db) (ref : ProjectRef)
    (bv : BuildVariant) (h : db1.versions = db2.versions) :
    computeActivateAt env db1 ref bv = computeActivateAt env db2 ref bv := by
  simp only [computeActivateAt, priorActivation, byLastVariantActivation, h]

/-- Characterization of the per-variant expansion loop: the version gains a
build reference and a build status for exactly the enabled variants, and
the store gains their build and task documents. -/
theorem expandLoop_spec (env : Env) (ref : ProjectRef) (bvs : List BuildVariant) :
    ∀ (v : Version) (db : Db),
    expandLoop env ref (v, db) bvs =
      ({ v with
          buildIds := v.buildIds ++
            (bvs.filter (fun bv => !bv.disabled)).map (fun bv => mkBuildId v.id bv.name),
          buildVariants := v.buildVariants ++
            (bvs.filter (fun bv => !bv.disabled)).map
              (fun bv => variantStatusFor env db ref v.id bv) },
        { db with
          builds := db.builds ++
            (bvs.filter (fun bv => !bv.disabled)).map (fun bv => buildDocFor v.id bv),
          tasks := db.tasks ++
            ((bvs.filter (fun bv => !bv.disabled)).map (fun bv => taskDocsFor v.id bv)).flatten }) := by
  induction bvs with
  | nil => intro v db; simp [expandLoop]
  | cons bv rest ih =>
    intro v db
    by_cases hdis : bv.disabled = true
    · simp [expandLoop, hdis, ih v db]
    · simp only [Bool.not_eq_true] at hdis
      simp only [expandLoop, hdis, Bool.false_eq_true, if_false, createBuildFromVersion,
        List.filter_cons, Bool.not_false, if_true, ite_true]
      rw [ih]
      simp [variantStatusFor, computeActivateAt, priorActivation, byLastVariantActivation,
        List.append_assoc]

/-- Expansion does not touch versions, watermarks or counters. -/
theorem expandLoop_snd_fields (env : Env) (ref : ProjectRef) (bvs : List BuildVariant)
    (v : Version) (db : Db) :
    (expandLoop env ref (v, db) bvs).2.versions = db.versions ∧
    (expandLoop env ref (v, db) bvs).2.repos = db.repos ∧
    (expandLoop env ref (v, db) bvs).2.counters = db.counters := by
  rw [expandLoop_spec]
  exact ⟨rfl, rfl, rfl⟩

/-- Expansion does not change the version's identity fields. -/
theorem expandLoop_fst_fields (env : Env) (ref : ProjectRef) (bvs : List BuildVariant)
    (v : Version) (db : Db) :
    (expandLoop env ref (v, db) bvs).1.id = v.id ∧
    (expandLoop env ref (v, db) bvs).1.identifier = v.identifier ∧
    (expandLoop env ref (v, db) bvs).1.revision = v.revision ∧
    (expandLoop env ref (v, db) bvs).1.revisionOrderNumber = v.revisionOrderNumber ∧
    (expandLoop env ref (v, db) bvs).1.errors = v.errors ∧
    (expandLoop env ref (v, db) bvs).1.ignored = v.ignored := by
  rw [expandLoop_spec]
  exact ⟨rfl, rfl, rfl, rfl, rfl, rfl⟩

/-- Rolling back builds does not touch versions, watermarks or counters. -/
theorem deleteBuilds_fields (l : List BuildStatus) :
    ∀ db : Db,
    ((l.foldl (fun d bs => deleteBuild d bs.buildId) db)).versions = db.versions ∧
    ((l.foldl (fun d bs => deleteBuild d bs.buildId) db)).repos = db.repos ∧
    ((l.foldl (fun d bs => deleteBuild d bs.buildId) db)).counters = db.counters := by
  induction l with
  | nil => intro db; exact ⟨rfl, rfl, rfl⟩
  | cons bs rest ih =>
    intro db
    simpa [deleteBuild] using ih (deleteBuild db bs.buildId)

/-- A successful raw insert appends exactly the given version. -/
theorem insertVersionRaw_inserted (env : Env) (db : Db) (v : Version) (db2 : Db)
    (h : insertVersionRaw env db v = .inserted db2) :
    db2.versions = db.versions ++ [v] ∧ db2.repos = db.repos ∧ db2.counters = db.counters ∧
    db2.builds = db.builds ∧ db2.tasks = db.tasks := by
  unfold insertVersionRaw at h
  split at h
  · exact absurd h (by simp)
  · split at h
    · exact absurd h (by simp)
    · cases h
      exact ⟨rfl, rfl, rfl, rfl, rfl⟩

/-- Drawing an order number only advances the project's counter. -/
theorem getNewRevisionOrderNumber_fields (db : Db) (p : String) :
    (getNewRevisionOrderNumber db p).2.versions = db.versions ∧
    (getNewRevisionOrderNumber db p).2.repos = db.repos ∧
    (getNewRevisionOrderNumber db p).2.builds = db.builds ∧
    (getNewRevisionOrderNumber db p).2.tasks = db.tasks := by
  exact ⟨rfl, rfl, rfl, rfl⟩

/-- The shell version's identity fields and order number. -/
theorem shellVersionFromRevision_fst (env : Env) (db : Db) (ref : ProjectRef) (rev : Revision) :
    (shellVersionFromRevision env db ref rev).1.id = versionIdFor ref rev ∧
    (shellVersionFromRevision env db ref rev).1.identifier = ref.identifier ∧
    (shellVersionFromRevision env db ref rev).1.revision = rev.revision ∧
    (shellVersionFromRevision env db ref rev).1.revisionOrderNumber =
      counterOf db ref.identifier + 1 ∧
    (shellVersionFromRevision env db ref rev).1.errors = [] ∧
    (shellVersionFromRevision env db ref rev).1.buildIds = [] ∧
    (shellVersionFromRevision env db ref rev).1.buildVariants = [] := by
  exact ⟨rfl, rfl, rfl, rfl, rfl, rfl, rfl⟩

/-- The shell version's store state is the counter-advanced store. -/
theorem shellVersionFromRevision_snd (env : Env) (db : Db) (ref : ProjectRef) (rev : Revision) :
    (shellVersionFromRevision env db ref rev).2 =
      (getNewRevisionOrderNumber db ref.identifier).2 := rfl

/-- Finding a key is unaffected by filtering out a different key. -/
theorem find_filter_other_key (l : List (String × Nat)) (p q : String) (h : ¬ p = q) :
    (l.filter (fun c => !(c.1 == q))).find? (fun c => c.1 == p) =
      l.find? (fun c => c.1 == p) := by
  induction l with
  | nil => rfl
  | cons c rest ih =>
    by_cases hq : c.1 = q
    · have hp : (c.1 == p) = false := by
        simp only [beq_eq_false_iff_ne, ne_eq, hq]
        exact fun hh => h hh.symm
      have hq2 : (c.1 == q) = true := by simpa using hq
      simp [List.filter_cons, hq2, List.find?_cons, hp, ih]
    · have hq2 : (c.1 == q) = false := by simpa using hq
      by_cases hp : c.1 = p
      · have hp2 : (c.1 == p) = true := by simpa using hp
        simp [List.filter_cons, hq2, List.find?_cons, hp2]
      · have hp2 : (c.1 == p) = false := by simpa using hp
        simp [List.filter_cons, hq2, List.find?_cons, hp2, ih]

/-- Drawing an order number advances exactly the project's counter. -/
theorem counterOf_bump (db : Db) (q p : String) :
    counterOf (getNewRevisionOrderNumber db q).2 p =
      if p = q then counterOf db p + 1 else counterOf db p := by
  by_cases h : p = q
  · subst h
    simp [counterOf, getNewRevisionOrderNumber, List.find?_cons]
  · have hq : (q == p) = false := by
      simp only [beq_eq_false_iff_ne, ne_eq]
      exact fun hh => h hh.symm
    simp only [counterOf, getNewRevisionOrderNumber, List.find?_cons, hq, h, if_false]
    rw [find_filter_other_key _ p q h]

/-- Order numbers, per project, of a list of version documents, in list
order. -/
def projNums (vs : List Version) (p : String) : List Nat :=
  (vs.filter (fun v => v.identifier == p)).map (fun v => v.revisionOrderNumber)

/-- The per-project order invariant (§3 of the spec): stored order numbers
strictly increase in insertion order, and none exceeds the order-number
counter — the counter never repeats or goes backward relative to the
numbers already handed out. -/
def ordInv (db : Db) (p : String) : Prop :=
  List.Pairwise (fun a b => a < b) (projNums db.versions p) ∧
  ∀ n ∈ projNums db.versions p, n ≤ counterOf db p

instance (db : Db) (p : String) : Decidable (ordInv db p) := by
  unfold ordInv
  infer_instance

/-- Appending a version extends the per-project order-number list by its
number when it belongs to the project. -/
theorem projNums_append (vs : List Version) (w : Version) (p : String) :
    projNums (vs ++ [w]) p =
      projNums vs p ++ (if w.identifier = p then [w.revisionOrderNumber] else []) := by
  by_cases h : w.identifier = p
  · simp [projNums, List.filter_append, h]
  · simp [projNums, List.filter_append, h]

/-- The counter value only depends on the counters component. -/
theorem counterOf_congr (db1 db2 : Db) (p : String) (h : db1.counters = db2.counters) :
    counterOf db1 p = counterOf db2 p := by
  unfold counterOf
  rw [h]

/-- What one revision-processing step can do to the store, as far as
versions, watermarks and counters go: leave them unchanged, or advance the
project's order-number counter, possibly also appending a single version of
this project carrying the number the counter handed out. -/
def StepEffect (ref : ProjectRef) (db dbOut : Db) : Prop :=
  dbOut.repos = db.repos ∧
  ((dbOut.counters = db.counters ∧ dbOut.versions = db.versions) ∨
    (dbOut.counters = (getNewRevisionOrderNumber db ref.identifier).2.counters ∧
      (dbOut.versions = db.versions ∨
        ∃ w, dbOut.versions = db.versions ++ [w] ∧ w.identifier = ref.identifier ∧
          w.revisionOrderNumber = counterOf db ref.identifier + 1)))

/-- Effect of `createVersionItems` on the store: watermarks and counters
are untouched; the versions either stay (insert failed, or duplicate key)
or gain exactly the expanded version. -/
theorem createVersionItems_effect (env : Env) (db : Db) (v : Version) (ref : ProjectRef)
    (project : Project) :
    (cvcDbOf (createVersionItems env db v ref project)).repos = db.repos ∧
    (cvcDbOf (createVersionItems env db v ref project)).counters = db.counters ∧
    ((cvcDbOf (createVersionItems env db v ref project)).versions = db.versions ∨
      (cvcDbOf (createVersionItems env db v ref project)).versions =
        db.versions ++ [(expandBuilds env db v ref project).1]) := by
  have hsnd : (expandBuilds env db v ref project).2.versions = db.versions ∧
      (expandBuilds env db v ref project).2.repos = db.repos ∧
      (expandBuilds env db v ref project).2.counters = db.counters :=
    expandLoop_snd_fields env ref project.buildVariants v db
  simp only [createVersionItems]
  cases heq : insertVersionRaw env (expandBuilds env db v ref project).2
      (expandBuilds env db v ref project).1 with
  | inserted db2 =>
    have hins := insertVersionRaw_inserted _ _ _ _ heq
    simp only [cvcDbOf]
    exact ⟨by rw [hins.2.1]; exact hsnd.2.1,
           by rw [hins.2.2.1]; exact hsnd.2.2,
           Or.inr (by rw [hins.1, hsnd.1])⟩
  | dupKey =>
    simp only [cvcDbOf]
    exact ⟨hsnd.2.1, hsnd.2.2, Or.inl hsnd.1⟩
  | failed =>
    have hdel := deleteBuilds_fields (expandBuilds env db v ref project).1.buildVariants
      (expandBuilds env db v ref project).2
    simp only [cvcDbOf]
    exact ⟨by rw [hdel.2.1]; exact hsnd.2.1,
           by rw [hdel.2.2]; exact hsnd.2.2,
           Or.inl (by rw [hdel.1]; exact hsnd.1)⟩

/-- Identity fields of the expanded version (wrapper of
`expandLoop_fst_fields` stated on `expandBuilds`). -/
theorem expandBuilds_fst_fields (env : Env) (db : Db) (v : Version) (ref : ProjectRef)
    (project : Project) :
    (expandBuilds env db v ref project).1.id = v.id ∧
    (expandBuilds env db v ref project).1.identifier = v.identifier ∧
    (expandBuilds env db v ref project).1.revision = v.revision ∧
    (expandBuilds env db v ref project).1.revisionOrderNumber = v.revisionOrderNumber ∧
    (expandBuilds env db v ref project).1.errors = v.errors ∧
    (expandBuilds env db v ref project).1.ignored = v.ignored :=
  expandLoop_fst_fields env ref project.buildVariants v db

/-- Effect of `CreateVersionFromConfig` on the store: the watermark is
untouched, the project's order-number counter is advanced, and at most one
version of the project — carrying the number the counter handed out — is
appended. -/
theorem CreateVersionFromConfig_effect (env : Env) (db : Db) (ref : ProjectRef)
    (project : Project) (rev : Revision) (ignore : Bool) (ve : Option VersionErrors) :
    StepEffect ref db (cvcDbOf (CreateVersionFromConfig env db ref project rev ignore ve)) := by
  have hrepos : (shellVersionFromRevision env db ref rev).2.repos = db.repos := rfl
  have hvers : (shellVersionFromRevision env db ref rev).2.versions = db.versions := rfl
  have hcnt : (shellVersionFromRevision env db ref rev).2.counters =
      (getNewRevisionOrderNumber db ref.identifier).2.counters := rfl
  have viaItems : ∀ vX : Version, vX.identifier = ref.identifier →
      vX.revisionOrderNumber = counterOf db ref.identifier + 1 →
      StepEffect ref db
        (cvcDbOf (createVersionItems env (shellVersionFromRevision env db ref rev).2
          vX ref project)) := by
    intro vX hid hnum
    have he := createVersionItems_effect env (shellVersionFromRevision env db ref rev).2
      vX ref project
    have hff := expandBuilds_fst_fields env (shellVersionFromRevision env db ref rev).2
      vX ref project
    refine ⟨he.1.trans hrepos, Or.inr ⟨he.2.1.trans hcnt, ?_⟩⟩
    rcases he.2.2 with h | h
    · exact Or.inl (h.trans hvers)
    · exact Or.inr ⟨_, by rw [h, hvers], hff.2.1.trans hid, hff.2.2.2.1.trans hnum⟩
  simp only [CreateVersionFromConfig]
  split
  · exact ⟨hrepos, Or.inr ⟨hcnt, Or.inl hvers⟩⟩
  · split
    · exact ⟨hrepos, Or.inr ⟨hcnt, Or.inl hvers⟩⟩
    · split
      · split
        · split
          · next db2 heq =>
              have hins := insertVersionRaw_inserted _ _ _ _ heq
              have hv2 := hins.1
              rw [hvers] at hv2
              simp only [cvcDbOf]
              exact ⟨hins.2.1.trans hrepos, Or.inr ⟨hins.2.2.1.trans hcnt,
                Or.inr ⟨_, hv2, rfl, rfl⟩⟩⟩
          · exact ⟨hrepos, Or.inr ⟨hcnt, Or.inl hvers⟩⟩
          · exact ⟨hrepos, Or.inr ⟨hcnt, Or.inl hvers⟩⟩
        · exact viaItems _ rfl rfl
      · exact viaItems _ rfl rfl

/-- Effect of one `StoreRevisions` iteration on the store. -/
theorem storeStep_effect (env : Env) (ref : ProjectRef) (db : Db) (acc : Option Version)
    (rev : Revision) : StepEffect ref db (storeStep env ref db acc rev).dbOf := by
  have hrepos : (shellVersionFromRevision env db ref rev).2.repos = db.repos := rfl
  have hvers : (shellVersionFromRevision env db ref rev).2.versions = db.versions := rfl
  have hcnt : (shellVersionFromRevision env db ref rev).2.counters =
      (getNewRevisionOrderNumber db ref.identifier).2.counters := rfl
  have hunch : StepEffect ref db db := ⟨rfl, Or.inl ⟨rfl, rfl⟩⟩
  have hbump : StepEffect ref db (shellVersionFromRevision env db ref rev).2 :=
    ⟨hrepos, Or.inr ⟨hcnt, Or.inl hvers⟩⟩
  simp only [storeStep]
  split
  · exact hunch
  · split
    · split
      · split
        · next d heq =>
            have hins := insertVersionRaw_inserted _ _ _ _ heq
            have hv2 := hins.1
            rw [hvers] at hv2
            exact ⟨hins.2.1.trans hrepos,
              Or.inr ⟨hins.2.2.1.trans hcnt, Or.inr ⟨_, hv2, rfl, rfl⟩⟩⟩
        · exact hbump
        · exact hbump
      · exact hunch
    · exact hunch
    · next project heq0 =>
        split
        · exact hunch
        · next ig heq =>
            split
            · next db1 heq2 =>
                have he := CreateVersionFromConfig_effect env db ref project rev ig none
                rw [heq2] at he
                exact he
            · next vd heq2 =>
                have he := CreateVersionFromConfig_effect env db ref project rev ig none
                rw [heq2] at he
                split
                · exact he
                · exact he

/-- The watermark is never touched inside a `StoreRevisions` pass. -/
theorem storeLoop_repos (env : Env) (ref : ProjectRef) (l : List Revision) :
    ∀ (db : Db) (acc : Option Version),
    (storeLoop env ref db acc l).dbOf.repos = db.repos := by
  induction l with
  | nil => intro db acc; rfl
  | cons r rest ih =>
    intro db acc
    have he := storeStep_effect env ref db acc r
    cases hs : storeStep env ref db acc r with
    | cont db1 n1 =>
        rw [hs] at he
        simp only [storeLoop, hs]
        exact (ih db1 n1).trans he.1
    | fatal db1 =>
        rw [hs] at he
        simp only [storeLoop, hs]
        exact he.1
    | crash db1 =>
        rw [hs] at he
        simp only [storeLoop, hs]
        exact he.1

/-- A step effect preserves the per-project order invariant: the counter
only advances, and any appended version carries the freshly handed-out
number, which strictly exceeds everything stored for the project. -/
theorem stepEffect_ordInv (ref : ProjectRef) (db dbOut : Db) (p : String)
    (he : StepEffect ref db dbOut) (h : ordInv db p) : ordInv dbOut p := by
  obtain ⟨hrepos, hrest⟩ := he
  rcases hrest with ⟨hcnt, hvers⟩ | ⟨hcnt, hvers⟩
  · constructor
    · rw [hvers]; exact h.1
    · intro n hn
      rw [hvers] at hn
      rw [counterOf_congr dbOut db p hcnt]
      exact h.2 n hn
  · have hc : counterOf dbOut p =
        if p = ref.identifier then counterOf db p + 1 else counterOf db p := by
      rw [counterOf_congr dbOut (getNewRevisionOrderNumber db ref.identifier).2 p hcnt]
      exact counterOf_bump db ref.identifier p
    have hbound : counterOf db p ≤ counterOf dbOut p := by
      rw [hc]; split <;> omega
    rcases hvers with hv | ⟨w, hv, hwid, hwnum⟩
    · constructor
      · rw [hv]; exact h.1
      · intro n hn
        rw [hv] at hn
        exact le_trans (h.2 n hn) hbound
    · constructor
      · rw [hv, projNums_append, List.pairwise_append]
        refine ⟨h.1, ?_, ?_⟩
        · split <;> simp
        · intro a ha b hb
          by_cases hp : w.identifier = p
          · have hpid : p = ref.identifier := hp ▸ hwid
            simp only [hp, if_true, List.mem_singleton] at hb
            subst hb
            rw [hwnum, ← hpid]
            exact Nat.lt_succ_of_le (h.2 a ha)
          · simp [hp] at hb
      · intro n hn
        rw [hv, projNums_append] at hn
        rcases List.mem_append.mp hn with hn | hn
        · exact le_trans (h.2 n hn) hbound
        · by_cases hp : w.identifier = p
          · have hpid : p = ref.identifier := hp ▸ hwid
            simp only [hp, if_true, List.mem_singleton] at hn
            subst hn
            rw [hwnum, hc, ← hpid]
            simp [hpid]
          · simp [hp] at hn

/-- The per-project order invariant is preserved across a whole
`StoreRevisions` pass. -/
theorem storeLoop_ordInv (env : Env) (ref : ProjectRef) (l : List Revision) (p : String) :
    ∀ (db : Db) (acc : Option Version),
    ordInv db p → ordInv (storeLoop env ref db acc l).dbOf p := by
  induction l with
  | nil => intro db acc h; exact h
  | cons r rest ih =>
    intro db acc h
    have he := storeStep_effect env ref db acc r
    cases hs : storeStep env ref db acc r with
    | cont db1 n1 =>
        rw [hs] at he
        simp only [storeLoop, hs]
        exact ih db1 n1 (stepEffect_ordInv ref db db1 p he h)
    | fatal db1 =>
        rw [hs] at he
        simp only [storeLoop, hs]
        exact stepEffect_ordInv ref db db1 p he h
    | crash db1 =>
        rw [hs] at he
        simp only [storeLoop, hs]
        exact stepEffect_ordInv ref db db1 p he h

/-- The processing loop is compositional: a successfully processed prefix
determines the state from which the rest of the batch runs. -/
theorem storeLoop_append (env : Env) (ref : ProjectRef) (l1 : List Revision) :
    ∀ (l2 : List Revision) (db : Db) (acc : Option Version) (db1 : Db) (acc1 : Option Version),
    storeLoop env ref db acc l1 = .ok db1 acc1 →
    storeLoop env ref db acc (l1 ++ l2) = storeLoop env ref db1 acc1 l2 := by
  induction l1 with
  | nil =>
    intro l2 db acc db1 acc1 h
    cases h
    rfl
  | cons r rest ih =>
    intro l2 db acc db1 acc1 h
    simp only [storeLoop] at h
    cases hs : storeStep env ref db acc r with
    | cont d n =>
        rw [hs] at h
        simp only [List.cons_append, storeLoop, hs]
        exact ih l2 d n db1 acc1 h
    | fatal d => rw [hs] at h; cases h
    | crash d => rw [hs] at h; cases h

/-- If every revision of the batch already has a version, the loop only
skips: the store is unchanged and the most recently processed existing
version is returned. -/
theorem storeLoop_all_existing (env : Env) (ref : ProjectRef) (l : List Revision) :
    ∀ (db : Db) (acc : Option Version),
    (∀ r ∈ l, (findByProjectIdAndRevision db ref.identifier r.revision).isSome = true) →
    storeLoop env ref db acc l =
      .ok db (l.foldl (fun _ r => findByProjectIdAndRevision db ref.identifier r.revision) acc) := by
  induction l with
  | nil => intro db acc h; rfl
  | cons r rest ih =>
    intro db acc h
    obtain ⟨v, hv⟩ := Option.isSome_iff_exists.mp (h r (List.mem_cons_self r rest))
    simp only [storeLoop, storeStep, hv, List.foldl_cons]
    rw [ih db (some v) (fun q hq => h q (List.mem_cons_of_mem _ hq))]

/-- C1: for every project and revision for which a Version already exists
for the (project, revision) pair, running the pipeline over a batch of such
revisions returns the existing Version (the one of the newest revision) and
performs no new writes — the store is returned unchanged, so a second run
over the same revision list performs zero new inserts and yields the same
version identifiers. -/
theorem storeRevisions_idempotent_on_existing (env : Env) (ref : ProjectRef) (db : Db)
    (revisions : List Revision)
    (h : ∀ r ∈ revisions,
      (findByProjectIdAndRevision db ref.identifier r.revision).isSome = true) :
    StoreRevisions env ref db revisions =
      .ok db (match revisions.head? with
              | none => none
              | some r0 => (findByProjectIdAndRevision db ref.identifier r0.revision).bind
                  (fun v => findOneById db v.id)) := by
  have hrev : ∀ r ∈ revisions.reverse,
      (findByProjectIdAndRevision db ref.identifier r.revision).isSome = true :=
    fun r hr => h r (List.mem_reverse.mp hr)
  unfold StoreRevisions
  rw [storeLoop_all_existing env ref revisions.reverse db none hrev]
  cases revisions with
  | nil => rfl
  | cons r0 rest =>
    simp only [List.reverse_cons, List.foldl_append, List.foldl_cons, List.foldl_nil,
      List.head?]
    cases hf : findByProjectIdAndRevision db ref.identifier r0.revision with
    | none => simp
    | some v => simp

/-- Concrete project reference for the witness scenarios. -/
def wref : ProjectRef :=
  { identifier := "p", branch := "main", owner := "own", repo := "repo", repoKind := "github",
    remotePath := "cfg.yml", localConfig := "", enabled := true, repotrackerError := false,
    batchTime := 9 }

/-- Concrete project configuration for the witness scenarios: one enabled
variant with two tasks, one disabled variant. -/
def wproj : Project :=
  { ignore := [],
    buildVariants := [
      { name := "linux", disabled := false, batchTime := some 60, taskNames := ["t1", "t2"] },
      { name := "win", disabled := true, batchTime := none, taskNames := ["t3"] } ] }

/-- Concrete all-success environment for the witness scenarios. -/
def wenv : Env :=
  { remoteConfig := fun _ => .ok wproj
    localProject := .error ()
    changedFiles := fun _ => .ok []
    checkProject := fun _ => .ok []
    findUser := fun _ => none
    fileIgnored := fun _ => true
    addBuildBreakOk := fun _ => true
    insFault := fun _ => false
    now := 1000 }

/-- Concrete revision for the witness scenarios. -/
def wrev1 : Revision :=
  { revision := "r1", author := "a", authorEmail := "a@x", authorGithubUID := 0,
    revisionMessage := "m1", createTime := 10 }

/-- Concrete second (newer) revision for the witness scenarios. -/
def wrev2 : Revision :=
  { wrev1 with revision := "r2", revisionMessage := "m2", createTime := 20 }

/-- The empty store. -/
def wdb0 : Db := { versions := [], builds := [], tasks := [], repos := [], counters := [] }

/-- The store after one successful pipeline pass over both witness
revisions. -/
def wdb1 : Db := (StoreRevisions wenv wref wdb0 [wrev2, wrev1]).dbOf

/-- Witness for C1: after a first pass stored both revisions, a second pass
over the same newest-first revision list finds every revision existing,
leaves the store untouched and returns the stored version of the newest
revision. -/
theorem storeRevisions_idempotent_on_existing_witness :
    (∀ r ∈ [wrev2, wrev1],
      (findByProjectIdAndRevision wdb1 wref.identifier r.revision).isSome = true) ∧
    StoreRevisions wenv wref wdb1 [wrev2, wrev1] =
      .ok wdb1 (match [wrev2, wrev1].head? with
                | none => none
                | some r0 => (findByProjectIdAndRevision wdb1 wref.identifier r0.revision).bind
                    (fun v => findOneById wdb1 v.id)) :=
  ⟨by decide, storeRevisions_idempotent_on_existing wenv wref wdb1 [wrev2, wrev1] (by decide)⟩

/-- A stored version of project p at revision r0 with order number 1, used
to set up an order-number inconsistency (the counter lags behind it). -/
def cexLatest : Version :=
  { id := "p_r0", author := "a", authorEmail := "a@x", branch := "main", createTime := 5,
    identifier := "p", message := "m0", owner := "own", remotePath := "cfg.yml",
    repo := "repo", repoKind := "github", requester := "gitter_request", revision := "r0",
    status := "created", revisionOrderNumber := 1, config := "", ignored := false,
    errors := [], warnings := [], buildIds := [], buildVariants := [], authorID := "" }

/-- A store whose latest version has order number 1 while the order-number
counter still reads 0: the next handed-out number (1) will not exceed the
latest stored number, so the consistency check must fire. -/
def cexDb : Db :=
  { versions := [cexLatest], builds := [], tasks := [], repos := [],
    counters := [("p", 0)] }

/-- Counterexample to C2: in `cexDb` the first processed revision (r1) draws
order number 1, failing the sanity check (first conjunct), yet the batch is
NOT aborted and no error is propagated: the run returns success (second
conjunct), r1 is skipped with nothing stored (third conjunct), and the
later revision r2 of the same batch is still fully processed and stored
(fourth conjunct) — the claim's "aborts the remainder of the current batch
and is propagated to the caller" is false. -/
theorem orderNum_violation_not_propagated_cex :
    sanityCheckOrderNum (shellVersionFromRevision wenv cexDb wref wrev1).2
        (shellVersionFromRevision wenv cexDb wref wrev1).1.revisionOrderNumber
        wref.identifier wrev1.revision = false ∧
    (StoreRevisions wenv wref cexDb [wrev2, wrev1]).isOk = true ∧
    findByProjectIdAndRevision (StoreRevisions wenv wref cexDb [wrev2, wrev1]).dbOf
        wref.identifier wrev1.revision = none ∧
    (findByProjectIdAndRevision (StoreRevisions wenv wref cexDb [wrev2, wrev1]).dbOf
        wref.identifier wrev2.revision).isSome = true := by
  refine ⟨by decide, by decide, by decide, by decide⟩

/-- C2 (amended): a failed order-number consistency check makes version
creation fail and stores nothing for that revision, but the error is only
logged: the revision is skipped and the loop continues with the rest of the
batch from the state whose only change is the consumed order number — the
error is not propagated and the batch is not aborted. -/
theorem orderNum_violation_skips_revision (env : Env) (ref : ProjectRef) (db : Db)
    (acc : Option Version) (rev : Revision) (rest : List Revision) (project : Project)
    (hfind : findByProjectIdAndRevision db ref.identifier rev.revision = none)
    (hcfg : GetProjectConfig env ref rev.revision = .ok project)
    (hig : project.ignore = [])
    (hsan : sanityCheckOrderNum (shellVersionFromRevision env db ref rev).2
        (shellVersionFromRevision env db ref rev).1.revisionOrderNumber
        ref.identifier rev.revision = false) :
    storeLoop env ref db acc (rev :: rest) =
      storeLoop env ref (shellVersionFromRevision env db ref rev).2 acc rest ∧
    (shellVersionFromRevision env db ref rev).2.versions = db.versions := by
  constructor
  · simp only [storeLoop, storeStep, hfind, hcfg, hig, List.length_nil, gt_iff_lt,
      lt_self_iff_false, if_false, CreateVersionFromConfig, hsan, if_true]
  · rfl

/-- Witness for the amended C2: in the `cexDb` scenario, processing r1 hits
the consistency failure, stores nothing and the loop continues. -/
theorem orderNum_violation_skips_revision_witness :
    findByProjectIdAndRevision cexDb wref.identifier wrev1.revision = none ∧
    GetProjectConfig wenv wref wrev1.revision = .ok wproj ∧
    wproj.ignore = [] ∧
    sanityCheckOrderNum (shellVersionFromRevision wenv cexDb wref wrev1).2
        (shellVersionFromRevision wenv cexDb wref wrev1).1.revisionOrderNumber
        wref.identifier wrev1.revision = false ∧
    (storeLoop wenv wref cexDb none [wrev1] =
        storeLoop wenv wref (shellVersionFromRevision wenv cexDb wref wrev1).2 none [] ∧
      (shellVersionFromRevision wenv cexDb wref wrev1).2.versions = cexDb.versions) :=
  ⟨by decide, rfl, rfl, by decide,
    orderNum_violation_skips_revision wenv wref cexDb none wrev1 [] wproj
      (by decide) rfl rfl (by decide)⟩

/-- A fatal (infrastructural) config-resolution error aborts the loop
immediately, with the store exactly as it was before the failing
revision. -/
theorem storeLoop_fatal_config (env : Env) (ref : ProjectRef) (db : Db) (acc : Option Version)
    (rev : Revision) (rest : List Revision)
    (hfind : findByProjectIdAndRevision db ref.identifier rev.revision = none)
    (hcfg : GetProjectConfig env ref rev.revision = .error .fatal) :
    storeLoop env ref db acc (rev :: rest) = .fatal db := by
  simp only [storeLoop, storeStep, hfind, hcfg]

/-- C3: when config resolution of some revision fails with an
infrastructural error, nothing is stored for that revision nor for any
later revision of the batch (the final store is exactly the state `db1`
reached after the earlier revisions), the error is propagated to the
orchestrator (`FetchRevisions` returns the error result), and the
repository watermark is not advanced. -/
theorem fatal_config_aborts_batch_and_keeps_watermark
    (oenv : OrchEnv) (env : Env) (ref : ProjectRef) (db : Db) (w : String)
    (revs pre rest : List Revision) (rev : Revision) (db1 : Db) (acc1 : Option Version)
    (henabled : ref.enabled = true)
    (hrepo : findRepository db ref.identifier =
      some { project := ref.identifier, lastRevision := w })
    (hw : (w == "") = false)
    (hserr : ref.repotrackerError = false)
    (hpoll : oenv.getRevisionsSince w
      (if oenv.maxRepoRevisionsToSearch ≤ 0 then DefaultMaxRepoRevisionsToSearch
       else oenv.maxRepoRevisionsToSearch) = .ok revs)
    (hsplit : revs.reverse = pre ++ rev :: rest)
    (hpre : storeLoop env ref db none pre = .ok db1 acc1)
    (hfind : findByProjectIdAndRevision db1 ref.identifier rev.revision = none)
    (hcfg : GetProjectConfig env ref rev.revision = .error .fatal) :
    FetchRevisions oenv env ref db = .err db1 ∧ db1.repos = db.repos := by
  have hstore : StoreRevisions env ref db revs = .fatal db1 := by
    unfold StoreRevisions
    rw [hsplit, storeLoop_append env ref pre (rev :: rest) db none db1 acc1 hpre,
      storeLoop_fatal_config env ref db1 acc1 rev rest hfind hcfg]
  have hrep : db1.repos = db.repos := by
    have hh := storeLoop_repos env ref pre db none
    rw [hpre] at hh
    exact hh
  have hlen : 0 < revs.length := by
    cases revs with
    | nil => simp at hsplit
    | cons a l => simp
  refine ⟨?_, hrep⟩
  unfold FetchRevisions
  rw [henabled, hrepo]
  simp only [Bool.not_true, Bool.false_eq_true, if_false, hw, hserr, hpoll, hstore,
    gt_iff_lt, hlen, if_true]

/-- Environment whose remote-config fetch fails infrastructurally at
revision r2 and succeeds elsewhere. -/
def c3env : Env :=
  { wenv with remoteConfig := fun r => if r == "r2" then .error .apiUnmarshal else .ok wproj }

/-- Store with a watermark at r0 and nothing else. -/
def c3db : Db :=
  { wdb0 with repos := [{ project := "p", lastRevision := "r0" }] }

/-- Orchestrator environment polling [r2, r1] (newest first) since any
watermark. -/
def c3oenv : OrchEnv :=
  { numNewRepoRevisionsToFetch := 200
    maxRepoRevisionsToSearch := 50
    getRecentRevisions := fun _ => .ok []
    getRevisionsSince := fun _ _ => .ok [wrev2, wrev1]
    updateLastRevisionOk := true
    doProjectActivationOk := true }

/-- The store after the successfully processed prefix [r1] of the C3
scenario. -/
def c3db1 : Db := (storeLoop c3env wref c3db none [wrev1]).dbOf

/-- The newest version after the successfully processed prefix [r1] of the
C3 scenario. -/
def c3acc1 : Option Version :=
  match storeLoop c3env wref c3db none [wrev1] with
  | .ok _ a => a
  | .fatal _ => none
  | .crash _ => none

/-- Witness for C3: r2's config fetch is infrastructural, r1 was stored by
the prefix, and the run returns the error result with the watermark (and
everything else) exactly as after r1. -/
theorem fatal_config_aborts_batch_and_keeps_watermark_witness :
    GetProjectConfig c3env wref wrev2.revision = .error .fatal ∧
    (FetchRevisions c3oenv c3env wref c3db = .err c3db1 ∧ c3db1.repos = c3db.repos) :=
  ⟨rfl,
    fatal_config_aborts_batch_and_keeps_watermark c3oenv c3env wref c3db "r0"
      [wrev2, wrev1] [wrev1] [] wrev2 c3db1 c3acc1 rfl (by decide) rfl rfl rfl rfl
      (by decide) (by decide) rfl⟩

/-- C4: a recoverable config error with error messages makes the pipeline
synthesize a stub version carrying exactly those error and warning
messages and no builds, persist it, and continue with the next revision of
the batch from the post-insert state — the batch is not aborted, so the
remaining revisions are processed from `db2` exactly as they would be in a
batch of their own. -/
theorem recoverable_config_error_stores_stub_and_continues (env : Env) (ref : ProjectRef)
    (db db2 : Db) (acc : Option Version) (rev : Revision) (rest : List Revision)
    (errs warns : List String)
    (hfind : findByProjectIdAndRevision db ref.identifier rev.revision = none)
    (hcfg : GetProjectConfig env ref rev.revision = .error (.projectConfig errs warns))
    (herrs : errs ≠ [])
    (hins : insertVersionRaw env (shellVersionFromRevision env db ref rev).2
        (stubFor env db ref rev errs warns) = .inserted db2) :
    storeLoop env ref db acc (rev :: rest) =
      storeLoop env ref db2 (some (stubFor env db ref rev errs warns)) rest ∧
    db2.versions = db.versions ++ [stubFor env db ref rev errs warns] ∧
    (stubFor env db ref rev errs warns).errors = errs ∧
    (stubFor env db ref rev errs warns).warnings = warns ∧
    (stubFor env db ref rev errs warns).buildIds = [] ∧
    (stubFor env db ref rev errs warns).buildVariants = [] := by
  have hlen : errs.length > 0 := List.length_pos.mpr herrs
  refine ⟨?_, ?_, rfl, rfl, rfl, rfl⟩
  · simp only [storeLoop, storeStep, hfind, hcfg, hlen, if_true, hins]
  · exact (insertVersionRaw_inserted _ _ _ _ hins).1

/-- Environment whose remote-config fetch reports the config file missing
at revision r1 and succeeds elsewhere. -/
def c4env : Env :=
  { wenv with remoteConfig := fun r => if r == "r1" then .error .fileNotFound else .ok wproj }

/-- The store after inserting the stub for r1 in the C4 scenario. -/
def c4db2 : Db :=
  match insertVersionRaw c4env (shellVersionFromRevision c4env wdb0 wref wrev1).2
      (stubFor c4env wdb0 wref wrev1 [configProblemMsg wref "r1"] []) with
  | .inserted d => d
  | .dupKey => wdb0
  | .failed => wdb0

/-- Witness for C4: r1's config is missing (a recoverable error), the stub
carrying the message is inserted, and the loop continues with r2; the
remaining batch then stores r2 fully expanded and the run succeeds. -/
theorem recoverable_config_error_stores_stub_and_continues_witness :
    GetProjectConfig c4env wref wrev1.revision =
      .error (.projectConfig [configProblemMsg wref "r1"] []) ∧
    (storeLoop c4env wref wdb0 none [wrev1, wrev2] =
        storeLoop c4env wref c4db2
          (some (stubFor c4env wdb0 wref wrev1 [configProblemMsg wref "r1"] [])) [wrev2] ∧
      c4db2.versions =
        wdb0.versions ++ [stubFor c4env wdb0 wref wrev1 [configProblemMsg wref "r1"] []] ∧
      (stubFor c4env wdb0 wref wrev1 [configProblemMsg wref "r1"] []).errors =
        [configProblemMsg wref "r1"] ∧
      (stubFor c4env wdb0 wref wrev1 [configProblemMsg wref "r1"] []).warnings = [] ∧
      (stubFor c4env wdb0 wref wrev1 [configProblemMsg wref "r1"] []).buildIds = [] ∧
      (stubFor c4env wdb0 wref wrev1 [configProblemMsg wref "r1"] []).buildVariants = []) ∧
    (storeLoop c4env wref wdb0 none [wrev1, wrev2]).isOk = true ∧
    (findByProjectIdAndRevision (storeLoop c4env wref wdb0 none [wrev1, wrev2]).dbOf
        wref.identifier wrev2.revision).isSome = true :=
  ⟨rfl,
    recoverable_config_error_stores_stub_and_continues c4env wref wdb0 c4db2 none wrev1
      [wrev2] [configProblemMsg wref "r1"] [] (by decide) rfl (by decide) (by decide),
    by decide, by decide⟩

/-- Build statuses recorded by the expansion: one per enabled variant, in
config order. -/
theorem expandBuilds_buildVariants (env : Env) (db : Db) (v : Version) (ref : ProjectRef)
    (project : Project) :
    (expandBuilds env db v ref project).1.buildVariants =
      v.buildVariants ++ (project.buildVariants.filter (fun bv => !bv.disabled)).map
        (fun bv => variantStatusFor env db ref v.id bv) := by
  have h : expandBuilds env db v ref project = _ :=
    expandLoop_spec env ref project.buildVariants v db
  rw [h]

/-- Build references recorded by the expansion: one per enabled variant. -/
theorem expandBuilds_buildIds (env : Env) (db : Db) (v : Version) (ref : ProjectRef)
    (project : Project) :
    (expandBuilds env db v ref project).1.buildIds =
      v.buildIds ++ (project.buildVariants.filter (fun bv => !bv.disabled)).map
        (fun bv => mkBuildId v.id bv.name) := by
  have h : expandBuilds env db v ref project = _ :=
    expandLoop_spec env ref project.buildVariants v db
  rw [h]

/-- Build documents persisted by the expansion: one per enabled variant. -/
theorem expandBuilds_builds (env : Env) (db : Db) (v : Version) (ref : ProjectRef)
    (project : Project) :
    (expandBuilds env db v ref project).2.builds =
      db.builds ++ (project.buildVariants.filter (fun bv => !bv.disabled)).map
        (fun bv => buildDocFor v.id bv) := by
  have h : expandBuilds env db v ref project = _ :=
    expandLoop_spec env ref project.buildVariants v db
  rw [h]

/-- Task documents persisted by the expansion: those of the enabled
variants. -/
theorem expandBuilds_tasks (env : Env) (db : Db) (v : Version) (ref : ProjectRef)
    (project : Project) :
    (expandBuilds env db v ref project).2.tasks =
      db.tasks ++ ((project.buildVariants.filter (fun bv => !bv.disabled)).map
        (fun bv => taskDocsFor v.id bv)).flatten := by
  have h : expandBuilds env db v ref project = _ :=
    expandLoop_spec env ref project.buildVariants v db
  rw [h]

/-- The compensating deletion keeps exactly the builds whose id is not
among the deleted build ids. -/
theorem deleteBuilds_builds (l : List BuildStatus) :
    ∀ db : Db,
    ((l.foldl (fun d bs => deleteBuild d bs.buildId) db)).builds =
      db.builds.filter (fun b => !(l.any (fun bs => bs.buildId == b.id))) := by
  induction l with
  | nil => intro db; simp
  | cons bs rest ih =>
    intro db
    have h1 : ((bs :: rest).foldl (fun d x => deleteBuild d x.buildId) db) =
        (rest.foldl (fun d x => deleteBuild d x.buildId) (deleteBuild db bs.buildId)) := rfl
    rw [h1, ih (deleteBuild db bs.buildId)]
    simp only [deleteBuild, List.filter_filter]
    apply List.filter_congr
    intro b _
    have hcomm : (b.id == bs.buildId) = (bs.buildId == b.id) := by
      by_cases h : b.id = bs.buildId
      · simp [h]
      · have h2 : ¬ bs.buildId = b.id := fun hh => h hh.symm
        simp [h, h2]
    simp [List.any_cons, hcomm, Bool.and_comm]

/-- C5: persisting an expanded version after its builds were created.  If
the insert is not faulted but the version collides with a stored one, the
duplicate-key outcome is treated as success (first part).  If the insert
fails with any other error, the operation propagates the error and every
build created for this version is rolled back: no build owned by the
version remains, and the version itself is not stored (second part). -/
theorem version_insert_conflict_and_rollback :
    (∀ (env : Env) (db : Db) (v : Version) (ref : ProjectRef) (project : Project),
      env.insFault v.id = false → versionClash db v = true →
      ∃ r, createVersionItems env db v ref project = .ok r) ∧
    (∀ (env : Env) (db : Db) (v : Version) (ref : ProjectRef) (project : Project),
      env.insFault v.id = true → (∀ b ∈ db.builds, b.versionId ≠ v.id) →
      ∃ dbE, createVersionItems env db v ref project = .error dbE ∧
        dbE.versions = db.versions ∧ ∀ b ∈ dbE.builds, b.versionId ≠ v.id) := by
  constructor
  · intro env db v ref project hflt hdup
    have hff := expandBuilds_fst_fields env db v ref project
    have hvers : (expandBuilds env db v ref project).2.versions = db.versions :=
      (expandLoop_snd_fields env ref project.buildVariants v db).1
    have hclash : versionClash (expandBuilds env db v ref project).2
        (expandBuilds env db v ref project).1 = true := by
      unfold versionClash at hdup ⊢
      rw [hvers, hff.1, hff.2.1, hff.2.2.1, hff.2.2.2.1]
      exact hdup
    have hraw : insertVersionRaw env (expandBuilds env db v ref project).2
        (expandBuilds env db v ref project).1 = .dupKey := by
      unfold insertVersionRaw
      rw [hff.1, hflt]
      simp [hclash]
    refine ⟨((expandBuilds env db v ref project).1, (expandBuilds env db v ref project).2), ?_⟩
    simp only [createVersionItems, hraw]
  · intro env db v ref project hflt hfresh
    have hff := expandBuilds_fst_fields env db v ref project
    have hraw : insertVersionRaw env (expandBuilds env db v ref project).2
        (expandBuilds env db v ref project).1 = .failed := by
      unfold insertVersionRaw
      rw [hff.1, hflt]
      simp
    refine ⟨(expandBuilds env db v ref project).1.buildVariants.foldl
        (fun d bs => deleteBuild d bs.buildId) (expandBuilds env db v ref project).2,
      by simp only [createVersionItems, hraw], ?_, ?_⟩
    · have hdel := deleteBuilds_fields (expandBuilds env db v ref project).1.buildVariants
        (expandBuilds env db v ref project).2
      rw [hdel.1]
      exact (expandLoop_snd_fields env ref project.buildVariants v db).1
    · intro b hb
      rw [deleteBuilds_builds] at hb
      have hb2 := List.mem_filter.mp hb
      rw [expandBuilds_builds] at hb2
      rcases List.mem_append.mp hb2.1 with hmem | hmem
      · exact hfresh b hmem
      · obtain ⟨bv, hbv, hbeq⟩ := List.mem_map.mp hmem
        exfalso
        have hany : ((expandBuilds env db v ref project).1.buildVariants.any
            (fun bs => bs.buildId == b.id)) = true := by
          rw [expandBuilds_buildVariants, List.any_append]
          refine Bool.or_eq_true_iff.mpr (Or.inr ?_)
          refine List.any_eq_true.mpr ⟨variantStatusFor env db ref v.id bv,
            List.mem_map.mpr ⟨bv, hbv, rfl⟩, ?_⟩
          rw [← hbeq]
          exact beq_self_eq_true _
        simp [hany] at hb2

/-- Environment that faults the insert of the version with id p_r0. -/
def c5env : Env := { wenv with insFault := fun id => id == "p_r0" }

/-- Witness for C5: part one at a store already containing the version
(duplicate key treated as success), part two with a faulted insert (error
propagated, no build owned by the version remains, version not stored). -/
theorem version_insert_conflict_and_rollback_witness :
    (wenv.insFault cexLatest.id = false ∧ versionClash cexDb cexLatest = true ∧
      ∃ r, createVersionItems wenv cexDb cexLatest wref wproj = .ok r) ∧
    (c5env.insFault cexLatest.id = true ∧ (∀ b ∈ wdb0.builds, b.versionId ≠ cexLatest.id) ∧
      ∃ dbE, createVersionItems c5env wdb0 cexLatest wref wproj = .error dbE ∧
        dbE.versions = wdb0.versions ∧ ∀ b ∈ dbE.builds, b.versionId ≠ cexLatest.id) :=
  ⟨⟨rfl, by decide,
    version_insert_conflict_and_rollback.1 wenv cexDb cexLatest wref wproj rfl (by decide)⟩,
   ⟨by decide, by decide,
    version_insert_conflict_and_rollback.2 c5env wdb0 cexLatest wref wproj (by decide)
      (by decide)⟩⟩

/-- C6: assuming the per-project order invariant (stored order numbers
strictly increasing in insertion order and bounded by the order-number
counter, which never repeats or goes backward), a whole pipeline pass
preserves it: every version the pipeline creates — stub or expanded — is
assigned an order number strictly greater than that of every version
previously stored for the project, so the stored sequence remains strictly
increasing in insertion order. -/
theorem order_numbers_strictly_increase (env : Env) (ref : ProjectRef) (db : Db)
    (revisions : List Revision) (p : String) (h : ordInv db p) :
    ordInv (StoreRevisions env ref db revisions).dbOf p := by
  have hl := storeLoop_ordInv env ref revisions.reverse p db none h
  unfold StoreRevisions
  cases hs : storeLoop env ref db none revisions.reverse with
  | ok db1 newest => rw [hs] at hl; exact hl
  | fatal db1 => rw [hs] at hl; exact hl
  | crash db1 => rw [hs] at hl; exact hl

/-- Witness for C6: the empty store satisfies the order invariant, and it
is preserved across a pass that stores two versions. -/
theorem order_numbers_strictly_increase_witness :
    ordInv wdb0 "p" ∧ ordInv (StoreRevisions wenv wref wdb0 [wrev2, wrev1]).dbOf "p" :=
  ⟨by decide, order_numbers_strictly_increase wenv wref wdb0 [wrev2, wrev1] "p" (by decide)⟩

/-- A prior version of project p whose linux variant activated at time
3000, used to demonstrate activation staggering. -/
def c7prior : Version :=
  { cexLatest with
    buildVariants := [{ buildVariant := "linux", activated := true, activateAt := 3000,
                        buildId := "p_r0_linux" }] }

/-- Store containing the prior activated version. -/
def c7db : Db := { wdb0 with versions := [c7prior], counters := [("p", 1)] }

/-- The linux variant with a 60-minute batch-time override. -/
def c7linux : BuildVariant :=
  { name := "linux", disabled := false, batchTime := some 60, taskNames := ["t1", "t2"] }

/-- C7: during expansion each enabled variant's recorded activation time is
the current time when no prior version of the project recorded an
activation for that exact variant name, and otherwise the prior activation
time plus the variant's batch time in minutes (its override, or the
project-wide default when it has none) — the commit's arrival time does
not enter the computation (first conjunct is the general characterization,
in which no revision timestamp occurs).  The last conjuncts instantiate the
spec's staggering scenario: prior linux activation at 3000 with batch time
60 minutes yields 3000 + 60 minutes, not `now`. -/
theorem activation_time_staggering :
    (∀ (env : Env) (db : Db) (v : Version) (ref : ProjectRef) (project : Project),
      (expandBuilds env db v ref project).1.buildVariants =
        v.buildVariants ++ (project.buildVariants.filter (fun bv => !bv.disabled)).map
          (fun bv =>
            { buildVariant := bv.name, activated := false,
              activateAt :=
                match priorActivation db ref.identifier bv.name with
                | none => env.now
                | some t => t + minute * getBatchTime ref bv,
              buildId := mkBuildId v.id bv.name })) ∧
    priorActivation c7db "p" "linux" = some 3000 ∧
    computeActivateAt wenv c7db wref c7linux = 3000 + minute * 60 ∧
    priorActivation wdb0 "p" "linux" = none ∧
    computeActivateAt wenv wdb0 wref c7linux = wenv.now := by
  refine ⟨?_, by decide, by decide, rfl, rfl⟩
  intro env db v ref project
  rw [expandBuilds_buildVariants]
  rfl

/-- C9: expansion contributes builds, tasks, build references and
build-variant statuses for exactly the variants not marked disabled, in
config order: a disabled variant produces no build document, no task
documents, no build reference and no build-variant status. -/
theorem disabled_variants_excluded (env : Env) (db : Db) (v : Version) (ref : ProjectRef)
    (project : Project) :
    ((expandBuilds env db v ref project).1.buildVariants.map (fun bs => bs.buildVariant) =
      v.buildVariants.map (fun bs => bs.buildVariant) ++
        (project.buildVariants.filter (fun bv => !bv.disabled)).map (fun bv => bv.name)) ∧
    (expandBuilds env db v ref project).2.builds =
      db.builds ++ (project.buildVariants.filter (fun bv => !bv.disabled)).map
        (fun bv => buildDocFor v.id bv) ∧
    (expandBuilds env db v ref project).2.tasks =
      db.tasks ++ ((project.buildVariants.filter (fun bv => !bv.disabled)).map
        (fun bv => taskDocsFor v.id bv)).flatten ∧
    (expandBuilds env db v ref project).1.buildIds =
      v.buildIds ++ (project.buildVariants.filter (fun bv => !bv.disabled)).map
        (fun bv => mkBuildId v.id bv.name) := by
  refine ⟨?_, expandBuilds_builds env db v ref project, expandBuilds_tasks env db v ref project,
    expandBuilds_buildIds env db v ref project⟩
  rw [expandBuilds_buildVariants]
  simp [variantStatusFor, List.map_map]

/-- Inversion for a successful `createVersionItems`: the returned version is
the expanded one. -/
theorem createVersionItems_ok_fst (env : Env) (db : Db) (v : Version) (ref : ProjectRef)
    (project : Project) (vd : Version × Db)
    (h : createVersionItems env db v ref project = .ok vd) :
    vd.1 = (expandBuilds env db v ref project).1 := by
  simp only [createVersionItems] at h
  split at h
  · cases h; rfl
  · cases h; rfl
  · cases h

/-- A successfully created version carries the ignore flag it was created
with. -/
theorem CreateVersionFromConfig_ok_ignored (env : Env) (db : Db) (ref : ProjectRef)
    (project : Project) (rev : Revision) (ignore : Bool) (ve : Option VersionErrors)
    (vd : Version × Db)
    (h : CreateVersionFromConfig env db ref project rev ignore ve = .ok vd) :
    vd.1.ignored = ignore := by
  simp only [CreateVersionFromConfig] at h
  split at h
  · cases h
  · split at h
    · cases h
    · split at h
      · split at h
        · split at h
          · cases h; rfl
          · cases h
          · cases h
        · rw [createVersionItems_ok_fst _ _ _ _ _ _ h,
            (expandBuilds_fst_fields _ _ _ _ _).2.2.2.2.2]
      · rw [createVersionItems_ok_fst _ _ _ _ _ _ h,
          (expandBuilds_fst_fields _ _ _ _ _).2.2.2.2.2]

/-- Project configuration declaring an ignore pattern. -/
def c8proj : Project := { wproj with ignore := ["only-docs"] }

/-- Environment resolving to the ignoring config but failing every
changed-file fetch. -/
def c8env : Env :=
  { wenv with remoteConfig := fun _ => .ok c8proj, changedFiles := fun _ => .error () }

/-- Counterexample to C8: with an ignore pattern declared and the
changed-file fetch failing, the claim says the version is still created
with ignored = false; the code instead skips the revision entirely — the
run succeeds but NO version is created for it (the store is unchanged and
the lookup still finds nothing). -/
theorem changedFiles_failure_no_version_cex :
    c8proj.ignore ≠ [] ∧
    c8env.changedFiles wrev1.revision = .error () ∧
    StoreRevisions c8env wref wdb0 [wrev1] = .ok wdb0 none ∧
    findByProjectIdAndRevision wdb0 wref.identifier wrev1.revision = none :=
  ⟨by decide, rfl, by decide, rfl⟩

/-- C8 (amended): when the config declares an ignore pattern, a failed
changed-file fetch is non-fatal for the batch but skips the revision
entirely — no version (ignored or not) is created for it and the loop
continues unchanged (first part).  When the fetch succeeds and every
changed file matches, the version is created with ignored = true and the
loop continues with it as the newest version (second part). -/
theorem ignore_check_failure_skips_success_marks (env : Env) (ref : ProjectRef) (db : Db)
    (acc : Option Version) (rev : Revision) (rest : List Revision) (project : Project)
    (hfind : findByProjectIdAndRevision db ref.identifier rev.revision = none)
    (hcfg : GetProjectConfig env ref rev.revision = .ok project)
    (hig : project.ignore ≠ []) :
    (env.changedFiles rev.revision = .error () →
      storeLoop env ref db acc (rev :: rest) = storeLoop env ref db acc rest) ∧
    (∀ (files : List String) (vd : Version × Db),
      env.changedFiles rev.revision = .ok files →
      ignoresAllFiles env files = true →
      CreateVersionFromConfig env db ref project rev true none = .ok vd →
      env.addBuildBreakOk vd.1.id = true →
      storeLoop env ref db acc (rev :: rest) = storeLoop env ref vd.2 (some vd.1) rest ∧
      vd.1.ignored = true) := by
  have hlen : project.ignore.length > 0 := List.length_pos.mpr hig
  constructor
  · intro hfiles
    simp only [storeLoop, storeStep, hfind, hcfg, hlen, if_true, hfiles]
  · intro files vd hfiles hall hok hsub
    refine ⟨?_, CreateVersionFromConfig_ok_ignored env db ref project rev true none vd hok⟩
    simp only [storeLoop, storeStep, hfind, hcfg, hlen, if_true, hfiles, hall, hok, hsub]

/-- Environment where every changed file matches the ignore pattern and the
file fetch succeeds. -/
def c8okEnv : Env :=
  { wenv with remoteConfig := fun _ => .ok c8proj, changedFiles := fun _ => .ok ["only-docs"] }

/-- The created version+store for the ignored revision in the C8 success
scenario. -/
def c8vd : Version × Db :=
  match CreateVersionFromConfig c8okEnv wdb0 wref c8proj wrev1 true none with
  | .ok vd => vd
  | .error _ => ((shellVersionFromRevision c8okEnv wdb0 wref wrev1).1, wdb0)

/-- Witness for the amended C8: the failing fetch skips r1 leaving the loop
state unchanged; the succeeding all-ignored fetch creates r1's version with
ignored = true, still carrying its build references, and continues with
it. -/
theorem ignore_check_failure_skips_success_marks_witness :
    ((c8env.changedFiles wrev1.revision = .error () →
        storeLoop c8env wref wdb0 none [wrev1] = storeLoop c8env wref wdb0 none []) ∧
      (storeLoop c8okEnv wref wdb0 none [wrev1] =
          storeLoop c8okEnv wref c8vd.2 (some c8vd.1) [] ∧
        c8vd.1.ignored = true)) ∧
    c8vd.1.buildIds ≠ [] ∧ c8vd.1 ∈ c8vd.2.versions :=
  ⟨⟨(ignore_check_failure_skips_success_marks c8env wref wdb0 none wrev1 [] c8proj
        (by decide) rfl (by decide)).1,
    (ignore_check_failure_skips_success_marks c8okEnv wref wdb0 none wrev1 [] c8proj
        (by decide) rfl (by decide)).2 ["only-docs"] c8vd rfl rfl rfl rfl⟩,
   by decide, by decide⟩

/-- Environment for the C10 scenario: r1's config file is missing
(recoverable error) and the insert of r1's stub version is faulted; r2
resolves and stores normally. -/
def c10env : Env :=
  { wenv with
    remoteConfig := fun r => if r == "r1" then .error .fileNotFound else .ok wproj,
    insFault := fun id => id == "p_r1" }

/-- Store with a watermark at r0 for the C10 scenario. -/
def c10db : Db := { wdb0 with repos := [{ project := "p", lastRevision := "r0" }] }

/-- The store after the full C10 pipeline run. -/
def c10final : Db := (FetchRevisions c3oenv c10env wref c10db).dbOf

/-- C10: when inserting a stub version fails, the failure is not
propagated: the loop continues with the next revision, with the
unpersisted stub recorded as the newest version of the batch and the
stored versions unchanged (first conjunct, the general step property).
Consequently a batch can complete successfully and advance the watermark
past a revision whose stub was never durably stored: in the concrete
scenario the run succeeds, the watermark lands on r2, and no version
exists for r1 (remaining conjuncts). -/
theorem stub_insert_failure_swallowed :
    (∀ (env : Env) (ref : ProjectRef) (db : Db) (acc : Option Version) (rev : Revision)
      (rest : List Revision) (errs warns : List String),
      findByProjectIdAndRevision db ref.identifier rev.revision = none →
      GetProjectConfig env ref rev.revision = .error (.projectConfig errs warns) →
      errs ≠ [] →
      insertVersionRaw env (shellVersionFromRevision env db ref rev).2
        (stubFor env db ref rev errs warns) = .failed →
      storeLoop env ref db acc (rev :: rest) =
        storeLoop env ref (shellVersionFromRevision env db ref rev).2
          (some (stubFor env db ref rev errs warns)) rest ∧
      (shellVersionFromRevision env db ref rev).2.versions = db.versions) ∧
    FetchRevisions c3oenv c10env wref c10db = .ok c10final ∧
    findRepository c10final wref.identifier =
      some { project := "p", lastRevision := "r2" } ∧
    findByProjectIdAndRevision c10final wref.identifier wrev1.revision = none := by
  refine ⟨?_, by decide, by decide, by decide⟩
  intro env ref db acc rev rest errs warns hfind hcfg herrs hfail
  have hlen : errs.length > 0 := List.length_pos.mpr herrs
  refine ⟨?_, rfl⟩
  simp only [storeLoop, storeStep, hfind, hcfg, hlen, if_true, hfail]

/-- Witness for C10: applying the step property in the concrete scenario —
r1's stub insert is faulted, the loop continues with r2 and the stored
versions are untouched. -/
theorem stub_insert_failure_swallowed_witness :
    storeLoop c10env wref c10db none [wrev1, wrev2] =
      storeLoop c10env wref (shellVersionFromRevision c10env c10db wref wrev1).2
        (some (stubFor c10env c10db wref wrev1 [configProblemMsg wref "r1"] [])) [wrev2] ∧
    (shellVersionFromRevision c10env c10db wref wrev1).2.versions = c10db.versions :=
  stub_insert_failure_swallowed.1 c10env wref c10db none wrev1 [wrev2]
    [configProblemMsg wref "r1"] [] (by decide) rfl (by decide) (by decide)

end Evergreen
